import Mathlib

/-!
Shallow embedding of the raml-mocker pipeline (src/index.js): the
specification-tree-to-mock-bundle collection pipeline.  Pure data is modelled
with Lean structures; the JavaScript control flow (lodash folds, async.each,
string methods) is translated statement by statement into executable
definitions, and the claims of the specification are settled as theorems
about those definitions.
-/

namespace RamlMocker

/-- JSON values, the result type of JSON.parse and of the schema-to-fixture
generator.  Numbers are restricted to integers, which covers every value the
pipeline inspects (status codes and schema texts are never numerically
manipulated). -/
inductive JsonV : Type where
  | null : JsonV
  | bool (b : Bool) : JsonV
  | num (n : Int) : JsonV
  | str (s : String) : JsonV
  | arr (l : List JsonV) : JsonV
  | obj (l : List (String × JsonV)) : JsonV
deriving Repr

/-- JavaScript truthiness of a JSON value: null, false, 0 and the empty
string are falsy, arrays and objects are always truthy. -/
def jsTruthyJson : JsonV → Bool
  | .null => false
  | .bool b => b
  | .num n => n != 0
  | .str s => s != ""
  | .arr _ => true
  | .obj _ => true

/-- JavaScript truthiness of an optional string (undefined and the empty
string are falsy). -/
def jsTruthyStrOpt : Option String → Bool
  | none => false
  | some s => s != ""

/-- Models the check !_.isNaN(Number(code)) followed by Number(code) on
status-code keys (source lines 172-173), restricted to the integer-valued
fragment of the JavaScript Number grammar that status-code keys draw from:
optional surrounding whitespace, an optional sign, then decimal digits; the
empty (or all-whitespace) string coerces to 0.  Strings outside this fragment
(alphabetic keys such as "default") coerce to NaN and yield none. -/
def isSpaceChar (c : Char) : Bool :=
  c = ' ' || c = '\t' || c = '\n' || c = '\r'

/-- Whitespace trimming on character lists (the trim JavaScript Number
performs before parsing). -/
def trimCs (l : List Char) : List Char :=
  ((l.dropWhile isSpaceChar).reverse.dropWhile isSpaceChar).reverse

def jsNumberInt? (s : String) : Option Int :=
  let l := trimCs s.data
  if l = [] then some 0
  else
    let core : List Char → Option Int := fun ds =>
      if ds ≠ [] ∧ ds.all Char.isDigit then
        some (ds.foldl (fun acc c => acc * 10 + (Int.ofNat (c.toNat - '0'.toNat))) 0)
      else none
    match l with
    | '-' :: rest => (core rest).map (fun n => -n)
    | '+' :: rest => core rest
    | _ => core l

/-- Models the test /^2\d\d$/.test(code) (source line 143) on an integer
status code: the decimal rendering of the code is three digits beginning
with 2 exactly when the code lies in [200, 299]. -/
def is2xx (n : Int) : Bool :=
  200 ≤ n && n ≤ 299

/-- Decides whether pat occurs as a prefix of l (character lists). -/
def startsWithCs : List Char → List Char → Bool
  | [], _ => true
  | _ :: _, [] => false
  | a :: as, b :: bs => a = b && startsWithCs as bs

/-- Decides whether pat occurs as a contiguous substring of hay. -/
def hasSubstr (hay pat : List Char) : Bool :=
  startsWithCs pat hay ||
    match hay with
    | [] => false
    | _ :: t => hasSubstr t pat

/-- ASCII lowercasing of one character, the effect the /i regex flag has on
the verb letters. -/
def lowerChar (c : Char) : Char :=
  if 'A' ≤ c && c ≤ 'Z' then Char.ofNat (c.toNat + 32) else c

/-- Models the unanchored case-insensitive regex test
/get|post|put|delete/i.test(v) (source line 127): the lowercased verb
contains one of the four words as a substring. -/
def verbRegexTest (v : String) : Bool :=
  let lv := v.data.map lowerChar
  hasSubstr lv "get".data || hasSubstr lv "post".data ||
    hasSubstr lv "put".data || hasSubstr lv "delete".data

/-- Character class [A-Za-z.-0-1] of the media-type regex (source line 165):
ASCII letters, the range from . to 0 (the characters ., / and 0), a literal
hyphen, and the digit 1.  Digits 2 through 9 are not in the class. -/
def vendorClassChar (c : Char) : Bool :=
  ('A' ≤ c && c ≤ 'Z') || ('a' ≤ c && c ≤ 'z') ||
    c = '.' || c = '/' || c = '0' || c = '-' || c = '1'

/-- Does the character list begin with json or xml (the tail of the
media-type regex)? -/
def jsonOrXmlCs : List Char → Bool
  | 'j' :: 's' :: 'o' :: 'n' :: _ => true
  | 'x' :: 'm' :: 'l' :: _ => true
  | _ => false

/-- Matches the regex fragment \+?(json|xml) at the head of the list. -/
def plusJsonXmlCs (l : List Char) : Bool :=
  jsonOrXmlCs l ||
    match l with
    | '+' :: rest => jsonOrXmlCs rest
    | _ => false

/-- Matches the regex fragment [A-Za-z.-0-1]*\+?(json|xml) at the head of
the list (existence of a split, equivalent to the backtracking regex
engine). -/
def appTailCs : List Char → Bool
  | [] => plusJsonXmlCs []
  | c :: rest => plusJsonXmlCs (c :: rest) || (vendorClassChar c && appTailCs rest)

/-- Models key.match(/application\/[A-Za-z.-0-1]*\+?(json|xml)/) on a
media-type key (source line 165): an unanchored search for the literal
application/ followed by the class star, an optional plus, and json or
xml. -/
def mediaMatchCs : List Char → Bool
  | [] => false
  | c :: rest =>
      (startsWithCs "application/".data (c :: rest) &&
        appTailCs ((c :: rest).drop 12)) ||
      mediaMatchCs rest

/-- String-level wrapper for the media-type regex test. -/
def mediaMatch (s : String) : Bool :=
  mediaMatchCs s.data

/-- BodyNode of the parsed specification: the schema is raw JSON text, the
example an already-parsed value. -/
structure BodyNode : Type where
  schema : Option String
  exampleV : Option JsonV
deriving Repr

/-- ResponseNode: an optional mapping from media type to body, in insertion
order as a JavaScript object iterates it. -/
structure ResponseNode : Type where
  body : Option (List (String × BodyNode))
deriving Repr

/-- MethodNode: the HTTP verb and the responses mapping keyed by status-code
text; a response value may be null. -/
structure MethodNode : Type where
  method : Option String
  responses : Option (List (String × Option ResponseNode))
deriving Repr

/-- One node of the resource tree produced by api.toJSON().  Option
distinguishes an absent field from an empty (but truthy) object or array. -/
inductive SpecNode : Type where
  | mk (relativeUri : Option String) (uriParameters : Option (List String))
       (methods : Option (List MethodNode)) (resources : Option (List SpecNode)) : SpecNode

def SpecNode.relativeUri : SpecNode → Option String
  | .mk r _ _ _ => r

def SpecNode.uriParameters : SpecNode → Option (List String)
  | .mk _ u _ _ => u

def SpecNode.methods : SpecNode → Option (List MethodNode)
  | .mk _ _ m _ => m

def SpecNode.resources : SpecNode → Option (List SpecNode)
  | .mk _ _ _ r => r

/-- Result of the external RAML parser for one file: api.toJSON() gives the
root node, and the declared version used for the base URI. -/
structure ApiData : Type where
  version : Option String
  node : SpecNode

/-- Abstract model of the external JSON.parse builtin: none models a parse
exception. -/
abbrev JsonParseFn := String → Option JsonV

/-- Format-extension table, passed opaquely to the generator. -/
abbrev Formats := List (String × JsonV)

/-- Abstract model of the external schema-to-fixture generator
schemaMocker(schema, formats, ramlfile). -/
abbrev GenFn := JsonV → Formats → String → JsonV

/-- A response candidate extracted by getResponsesByCode: the parsed status
code, the parsed schema (none on absent, empty or unparseable schema text)
and the example. -/
structure Cand : Type where
  code : Int
  schema : Option JsonV
  exampleV : Option JsonV
deriving Repr

/-- First-match association lookup on a body map, the semantics of indexing
a JavaScript object by key. -/
def lookupBody (k : String) : List (String × BodyNode) → Option BodyNode
  | [] => none
  | (k', v) :: t => if k' = k then some v else lookupBody k t

/-- Models the body-selection of getResponsesByCode (source lines 162-169):
body starts as the application/json entry, then the for-in loop walks the
keys in insertion order and the first key matching the media-type regex
overrides it (with break). -/
def selectBody (body : Option (List (String × BodyNode))) : Option BodyNode :=
  let init := body.bind (lookupBody "application/json")
  match (body.getD []).find? (fun kv => mediaMatch kv.1) with
  | some kv => some kv.2
  | none => init

/-- The diagnostic emitted when schema text fails to parse (source
line 178). -/
def schemaWarnMsg (schemaText : String) : String :=
  "Unable to parse " ++ schemaText ++ " schema Please use !include schemas/<file-name> instead"

/-- Extraction of one responses entry (body of the _.each callback, source
lines 160-186): skip null responses, select a body, require a numeric code
and a body, parse the schema text inside try/catch (a failure emits a
diagnostic and leaves the schema null), and emit the candidate. -/
def extractEntry (jp : JsonParseFn) (codeStr : String) (respOpt : Option ResponseNode) :
    Option Cand × List String :=
  match respOpt with
  | none => (none, [])
  | some resp =>
    match jsNumberInt? codeStr, selectBody resp.body with
    | some n, some body =>
        let ex := body.exampleV
        let (schema, warns) :=
          match body.schema with
          | none => (none, [])
          | some s =>
              if s = "" then (none, [])
              else
                match jp s with
                | some v => (some v, [])
                | none => (none, [schemaWarnMsg s])
        (some { code := n, schema := schema, exampleV := ex }, warns)
    | _, _ => (none, [])

/-- getRamlRequestsToMock responses extractor (source lines 158-189):
processes the responses mapping in order, collecting candidates and
schema-parse diagnostics.  The function is total: no exception escapes
it. -/
def getResponsesByCode (jp : JsonParseFn) :
    List (String × Option ResponseNode) → List Cand × List String
  | [] => ([], [])
  | (codeStr, respOpt) :: rest =>
      let p := extractEntry jp codeStr respOpt
      let q := getResponsesByCode jp rest
      (p.1.toList ++ q.1, p.2 ++ q.2)

/-- Replaces the first occurrence of pat in s by rep, scanning left to
right, and returns s unchanged when pat does not occur — the semantics of
JavaScript String.replace with a string pattern (source line 94). -/
def replaceFirstCs (s pat rep : List Char) : List Char :=
  if startsWithCs pat s then rep ++ s.drop pat.length
  else
    match s with
    | [] => []
    | c :: t => c :: replaceFirstCs t pat rep

/-- String-level wrapper for replaceFirstCs. -/
def jsReplaceFirst (s pat rep : String) : String :=
  ⟨replaceFirstCs s.data pat.data rep.data⟩

/-- Scan implementing the global regex replacement of /\/{2,}/g by '/'
(source line 97): every run of consecutive slashes is collapsed to a single
slash.  The flag records whether the previous emitted character was a
slash. -/
def collapseAux : Bool → List Char → List Char
  | _, [] => []
  | prev, c :: t =>
      if c = '/' then
        if prev then collapseAux true t else '/' :: collapseAux true t
      else c :: collapseAux false t

/-- String-level slash collapsing. -/
def collapseSlashes (s : String) : String :=
  ⟨collapseAux false s.data⟩

/-- URI computation of getRamlRequestsToMock (source lines 90-97): each
declared uriParameter name rewrites the first occurrence of its
\x7bname\x7d placeholder to :name (JavaScript String.replace with a string
pattern replaces only the first match), then parentUri + '/' + segment is
collapsed. -/
def rewriteParams (seg : String) (ps : List String) : String :=
  ps.foldl (fun acc name => jsReplaceFirst acc ("\x7b" ++ name ++ "\x7d") (":" ++ name)) seg

def resolveUri (uri : String) (relativeUri : String) (uriParameters : List String) : String :=
  collapseSlashes (uri ++ "/" ++ rewriteParams relativeUri uriParameters)

/-- Modelled from the spec: the per-code entry that RequestMocker.addResponse
stores (requestMocker.js is not part of src/).  The schema thunk of source
lines 134-141 is defunctionalized into the environment the closure captures:
the candidate schema, the formats table and the source file; the example
thunk is the captured example value. -/
structure MockEntry : Type where
  schema : Option JsonV
  formats : Formats
  ramlfile : String
  exampleV : Option JsonV

/-- Modelled from the spec: the MockBundle object built by requestMocker.js
(not part of src/): uri, method, the response map keyed by code, the
selected defaultCode, and the snapshots mock / example of the default
thunks.  The ref field models JavaScript object identity: every
new RequestMocker(...) is a fresh reference, and lodash _.union compares
objects by reference. -/
structure RequestMocker : Type where
  ref : Nat
  uri : String
  method : String
  responsesByCode : List (Int × MockEntry)
  defaultCode : Option Int
  mock : Option MockEntry
  exampleV : Option (Option JsonV)

/-- Lookup in the keyed response map, the semantics of indexing a JavaScript
object by (numeric) key. -/
def lookupCode (k : Int) : List (Int × MockEntry) → Option MockEntry
  | [] => none
  | (k', v) :: t => if k' = k then some v else lookupCode k t

/-- Modelled from the spec: RequestMocker.addResponse registers the entry in
responsesByCode under its code, overwriting any existing entry for the same
code. -/
def setResponse : List (Int × MockEntry) → Int → MockEntry → List (Int × MockEntry)
  | [], k, v => [(k, v)]
  | (k', v') :: t, k, v => if k' = k then (k, v) :: t else (k', v') :: setResponse t k v

/-- Fold state of the _.each over candidates in getRamlRequestsToMockMethods:
the growing response map, the default snapshots, and
currentMockDefaultCode. -/
structure BuildState : Type where
  responsesByCode : List (Int × MockEntry)
  mock : Option MockEntry
  exampleV : Option (Option JsonV)
  cur : Option Int

/-- One iteration of the candidate fold (source lines 133-148): addResponse
stores the defunctionalized thunks, then the check
(!currentMockDefaultCode || currentMockDefaultCode > code) together with the
2xx test updates the default snapshots from the just-updated response map
(getResponses()[code]).  The m = 0 disjunct models the JavaScript falsiness
of a zero currentMockDefaultCode. -/
def defaultCheck (cur : Option Int) (code : Int) : Bool :=
  (match cur with
    | none => true
    | some m => decide (m = 0) || decide (m > code)) && is2xx code

def addCandidate (fmts : Formats) (rf : String) (st : BuildState) (cand : Cand) : BuildState :=
  let entry : MockEntry :=
    { schema := cand.schema, formats := fmts, ramlfile := rf, exampleV := cand.exampleV }
  let rs := setResponse st.responsesByCode cand.code entry
  if defaultCheck st.cur cand.code then
    { responsesByCode := rs
      mock := lookupCode cand.code rs
      exampleV := (lookupCode cand.code rs).map (fun e => e.exampleV)
      cur := some cand.code }
  else
    { st with responsesByCode := rs }

/-- The candidate fold of getRamlRequestsToMockMethods, in discovery
order. -/
def addCandidates (fmts : Formats) (rf : String) : BuildState → List Cand → BuildState
  | st, [] => st
  | st, c :: t => addCandidates fmts rf (addCandidate fmts rf st c) t

/-- Construction of one bundle (source lines 130-152): a fresh
RequestMocker (ref models the new-object identity), the candidate fold, and
the final defaultCode assignment guarded by the JavaScript truthiness of
currentMockDefaultCode. -/
def initBuildState : BuildState :=
  { responsesByCode := [], mock := none, exampleV := none, cur := none }

def buildMocker (fmts : Formats) (rf : String) (ref : Nat) (uri verb : String)
    (cands : List Cand) : RequestMocker :=
  let st := addCandidates fmts rf initBuildState cands
  { ref := ref, uri := uri, method := verb
    responsesByCode := st.responsesByCode
    defaultCode :=
      match st.cur with
      | some m => if m = 0 then none else some m
      | none => none
    mock := st.mock
    exampleV := st.exampleV }

/-- The qualification test of source line 127: method.method is truthy, the
case-insensitive unanchored verb regex matches, and method.responses is
present — an empty responses object is truthy in JavaScript and still
qualifies. -/
def methodQualifies (m : MethodNode) : Bool :=
  jsTruthyStrOpt m.method && verbRegexTest (m.method.getD "") && m.responses.isSome

/-- getRamlRequestsToMockMethods (source lines 124-156): one bundle per
qualifying method node.  The generator gen is in scope exactly as
schemaMocker is in the source; construction stores the captured candidate
data and never applies gen.  The Nat argument threads the supply of fresh
object references. -/
def collectMethods (gen : GenFn) (jp : JsonParseFn) (fmts : Formats) (rf : String)
    (uri : String) : List MethodNode → Nat → List RequestMocker × Nat
  | [], c => ([], c)
  | m :: t, c =>
      if methodQualifies m then
        let cands := (getResponsesByCode jp (m.responses.getD [])).1
        let b := buildMocker fmts rf c uri (m.method.getD "") cands
        let p := collectMethods gen jp fmts rf uri t (c + 1)
        (b :: p.1, p.2)
      else
        collectMethods gen jp fmts rf uri t c

/-- Membership of a reference in the seen list. -/
def refSeen (n : Nat) : List Nat → Bool
  | [] => false
  | x :: t => n = x || refSeen n t

/-- Deduplication by object reference, keeping first occurrences: the
uniqueness pass of lodash _.union under SameValueZero, which compares
objects by reference. -/
def dedupByRef : List Nat → List RequestMocker → List RequestMocker
  | _, [] => []
  | seen, b :: t =>
      if refSeen b.ref seen then dedupByRef seen t
      else b :: dedupByRef (b.ref :: seen) t

/-- lodash _.union of two bundle collections (source lines 72, 103, 111,
195). -/
def jsUnion (xs ys : List RequestMocker) : List RequestMocker :=
  dedupByRef [] (xs ++ ys)

/-- The resolved URI of one node (source lines 90-98): when relativeUri is
truthy the placeholders declared in uriParameters are rewritten and the
segment is appended and collapsed; otherwise the parent URI is kept.  An
absent uriParameters object iterates like an empty one. -/
def nodeUri (uri : String) (ru : Option String) (up : Option (List String)) : String :=
  match ru with
  | some seg => if seg = "" then uri else resolveUri uri seg (up.getD [])
  | none => uri

mutual

/-- getRamlRequestsToMock (source lines 87-122): resolve the node URI when
relativeUri is truthy, then union the method bundles and the recursively
collected resource bundles into the accumulator that starts empty
(async.parallel runs the two synchronous tasks in push order: methods first,
resources second). -/
def collectNode (gen : GenFn) (jp : JsonParseFn) (fmts : Formats) (rf : String) :
    SpecNode → String → Nat → List RequestMocker × Nat
  | SpecNode.mk ru up ms rs, uri, c =>
      let uri' := nodeUri uri ru up
      let p1 :=
        match ms with
        | some l => collectMethods gen jp fmts rf uri' l c
        | none => ([], c)
      let p2 :=
        match rs with
        | some l => collectList gen jp fmts rf l uri' p1.2 []
        | none => ([], p1.2)
      (jsUnion (jsUnion [] p1.1) p2.1, p2.2)

/-- getRamlRequestsToMockResources (source lines 191-204): async.each over
the children, every child result union-ed into the accumulator in order. -/
def collectList (gen : GenFn) (jp : JsonParseFn) (fmts : Formats) (rf : String) :
    List SpecNode → String → Nat → List RequestMocker → List RequestMocker × Nat
  | [], _, c, acc => (acc, c)
  | n :: t, uri, c, acc =>
      let p := collectNode gen jp fmts rf n uri c
      collectList gen jp fmts rf t uri p.2 (jsUnion acc p.1)

end

/-- Base URI of one file (source line 69). -/
def baseUri (useApiVersion : Bool) (version : Option String) : String :=
  "/" ++ (if useApiVersion then (version.getD "") ++ "/" else "")

/-- Options consumed by the pipeline itself. -/
structure PipelineOptions : Type where
  useApiVersion : Bool
  formats : Formats

/-- Observable outcome of generateFromFiles: every invocation of the caller
callback with its argument, and the console output of the aggregation
completion handler. -/
structure RunOutcome : Type where
  callbackCalls : List (List RequestMocker)
  consoleLog : List String

/-- The per-file loop of generateFromFiles: parse the file, walk its tree
from the base URI, union into the running collection; the first parse
failure aborts with the error message of source line 76. -/
def runFilesAux (gen : GenFn) (jp : JsonParseFn) (parse : String → Except String ApiData)
    (opts : PipelineOptions) :
    List String → Nat → List RequestMocker → Except String (List RequestMocker)
  | [], _, acc => .ok acc
  | f :: rest, c, acc =>
      match parse f with
      | .error e => .error ("Error parsing: " ++ e)
      | .ok data =>
          let uri := baseUri opts.useApiVersion data.version
          let p := collectNode gen jp opts.formats f data.node uri c
          runFilesAux gen jp parse opts rest p.2 (jsUnion acc p.1)

/-- generateFromFiles (source lines 60-85).  Glob expansion is external and
the files list is taken post-expansion.  The completion handler of
async.each logs the first error to the console and invokes the caller
callback only when no file failed — on failure the callback is never
invoked. -/
def generateFromFiles (gen : GenFn) (jp : JsonParseFn)
    (parse : String → Except String ApiData) (opts : PipelineOptions)
    (files : List String) : RunOutcome :=
  match runFilesAux gen jp parse opts files 0 [] with
  | .error e => { callbackCalls := [], consoleLog := [e] }
  | .ok reqs => { callbackCalls := [reqs], consoleLog := [] }

/-- The callback argument of generate as the entry point sees it: absent,
present but not a function, or a function. -/
inductive JsCallback : Type where
  | missing : JsCallback
  | notFunction : JsCallback
  | fn : JsCallback
deriving DecidableEq

/-- The files option: absent, an array, or some other truthy value that
fails the _.isArray test. -/
inductive FilesField : Type where
  | undef : FilesField
  | array (fs : List String) : FilesField
  | notArray : FilesField

/-- The options object of the entry point. -/
structure GenOptions : Type where
  path : Option String
  files : FilesField

/-- Diagnostic printed when no callback function is supplied (source
line 15). -/
def noCallbackMsg : String := "[RAML-MOCKER] You must define a callback function:"

/-- Diagnostic printed when no options object is supplied (source
line 30). -/
def noOptionsMsg : String := "[RAML-MOCKER] You must define a options object:"

/-- Stands for the usage banner printed by showUsage (source lines 35-43). -/
def usageBanner : String := "---------------------- HOW TO USE RAML MOCKER ----------------------"

/-- Observable outcome of one call of the entry point before any
asynchronous work completes: console output, which pipeline branch was
dispatched, and the callback invocations performed by the entry point body
itself. -/
structure GenerateResult : Type where
  consoleOut : List String
  calledGenerateFromPath : Option String
  calledGenerateFromFiles : Option (List String)
  callbackCallsDirect : List (List RequestMocker)

/-- The public entry point generate(options, callback) (source lines 12-33):
validates the options object and the callback, printing a diagnostic plus
the usage banner when either is missing, and dispatches on options.path and
options.files.  The body itself never invokes the callback (only the
dispatched pipeline eventually does), so callbackCallsDirect is empty on
every path.  There is no early return after the callback diagnostic: the
dispatch still runs. -/
def generate (options : Option GenOptions) (callback : JsCallback) : GenerateResult :=
  match options with
  | none =>
      { consoleOut := [noOptionsMsg, usageBanner], calledGenerateFromPath := none
        calledGenerateFromFiles := none, callbackCallsDirect := [] }
  | some o =>
      let out0 := if callback = .fn then [] else [noCallbackMsg, usageBanner]
      if jsTruthyStrOpt o.path then
        { consoleOut := out0, calledGenerateFromPath := o.path
          calledGenerateFromFiles := none, callbackCallsDirect := [] }
      else
        match o.files with
        | .array fs =>
            { consoleOut := out0, calledGenerateFromPath := none
              calledGenerateFromFiles := some fs, callbackCallsDirect := [] }
        | _ =>
            { consoleOut := out0, calledGenerateFromPath := none
              calledGenerateFromFiles := none, callbackCallsDirect := [] }

/-- The stored schema thunk body (source lines 134-139), defunctionalized:
forcing the thunk applies the generator to the captured schema when that
schema is truthy and yields null otherwise.  This is the only definition in
the development that applies a GenFn. -/
def invokeMockThunk (gen : GenFn) (e : MockEntry) : JsonV :=
  match e.schema with
  | some s => if jsTruthyJson s then gen s e.formats e.ramlfile else JsonV.null
  | none => JsonV.null

/-- The stored example thunk body (source lines 140-142): forcing it returns
the captured example value. -/
def invokeExampleThunk (e : MockEntry) : Option JsonV :=
  e.exampleV

/-- Minimum of two optional integers, none acting as the neutral element. -/
def omin : Option Int → Option Int → Option Int
  | none, b => b
  | some a, none => some a
  | some a, some b => some (min a b)

/-- A code as an optional 2xx contribution: itself when 2xx, none
otherwise. -/
def code2xxOpt (c : Int) : Option Int :=
  if is2xx c then some c else none

/-- The lowest 2xx code of a code list, none when no 2xx code occurs: the
order-independent value the default-selection fold computes. -/
def min2xx : List Int → Option Int
  | [] => none
  | c :: t => omin (code2xxOpt c) (min2xx t)

mutual

/-- Number of qualifying method nodes in a subtree: the number of bundles
the node contributes. -/
def countNode : SpecNode → Nat
  | .mk _ _ ms rs =>
      (match ms with
        | some l => (l.filter methodQualifies).length
        | none => 0) +
      (match rs with
        | some l => countList l
        | none => 0)

/-- Number of qualifying method nodes in a child list. -/
def countList : List SpecNode → Nat
  | [] => 0
  | n :: t => countNode n + countList t

end

/-- Bundles a file contributes to the final collection: the
qualifying-method count of its parsed tree, zero if the file fails to
parse. -/
def countFile (parse : String → Except String ApiData) (f : String) : Nat :=
  match parse f with
  | .ok d => countNode d.node
  | .error _ => 0

/-- Does the string contain two consecutive slashes? -/
def hasDoubleSlashCs : List Char → Bool
  | [] => false
  | [_] => false
  | a :: b :: t => (a = '/' && b = '/') || hasDoubleSlashCs (b :: t)

/-- Does the string start with a slash? -/
def startsWithSlash (s : String) : Bool :=
  match s.data with
  | c :: _ => c = '/'
  | [] => false

/-- Invariant I1 of the specification on a URI string: starts with a slash
and contains no two consecutive slashes. -/
def uriOk (s : String) : Bool :=
  startsWithSlash s && !hasDoubleSlashCs s.data

/-- Per-entry candidate extraction stated independently of the imperative
loop, with the selection rule the code actually implements: the
representative body is the FIRST body key in insertion order matching the
media-type regex (a plain application/json entry is not preferred over an
earlier vendor match), a candidate arises exactly when the status-code key
coerces to a number and such a body exists, and the schema is the parsed
schema text when truthy and parseable. -/
def extractEntrySpec (jp : JsonParseFn) (codeStr : String) (respOpt : Option ResponseNode) :
    Option Cand :=
  match respOpt with
  | none => none
  | some resp =>
      match jsNumberInt? codeStr, (resp.body.getD []).find? (fun kv => mediaMatch kv.1) with
      | some n, some kv =>
          some { code := n
                 schema := kv.2.schema.bind (fun s => if s = "" then none else jp s)
                 exampleV := kv.2.exampleV }
      | _, _ => none

/-- A generator instance used to evaluate the model at concrete inputs. -/
def genNull : GenFn := fun _ _ _ => JsonV.null

/-- A JSON.parse instance that fails on every input. -/
def jpFail : JsonParseFn := fun _ => none

/-- A resource node declaring /ping with a GET method and a single coded
response carrying an application/json example. -/
def pingNode (codeStr : String) (exS : String) : SpecNode :=
  .mk (some "/ping") none
    (some [{ method := some "GET"
             responses := some [(codeStr,
               some { body := some [("application/json",
                 { schema := none, exampleV := some (.str exS) })] })] }])
    none

/-- File a.raml: /ping GET with response 200. -/
def apiPing200 : ApiData :=
  { version := none, node := .mk none none none (some [pingNode "200" "pong"]) }

/-- File b.raml: /ping GET with response 503. -/
def apiPing503 : ApiData :=
  { version := none, node := .mk none none none (some [pingNode "503" "down"]) }

/-- Parser environment serving the two ping files and failing on any other
path. -/
def parsePing : String → Except String ApiData := fun f =>
  if f = "a.raml" then .ok apiPing200
  else if f = "b.raml" then .ok apiPing503
  else .error "boom"

/-- Pipeline options with no version prefixing and an empty formats
table. -/
def noOpts : PipelineOptions := { useApiVersion := false, formats := [] }

/-- Specification of a bundle collection produced between reference counters
c and c2: the counter grows, every bundle reference is fresh within [c, c2),
references are pairwise distinct, the URI invariant is inherited from the
incoming URI, and the collection holds exactly k bundles. -/
def BundlesSpec (bs : List RequestMocker) (c c2 : Nat) (uri : String) (k : Nat) : Prop :=
  c ≤ c2 ∧
  (∀ b ∈ bs, (c ≤ b.ref ∧ b.ref < c2) ∧ (uriOk uri = true → uriOk b.uri = true)) ∧
  (bs.map RequestMocker.ref).Nodup ∧
  bs.length = k

theorem refSeen_iff (n : Nat) : ∀ l : List Nat, refSeen n l = true ↔ n ∈ l := by
  intro l
  induction l with
  | nil => simp [refSeen]
  | cons x t ih => simp [refSeen, ih]

theorem mem_of_mem_dedupByRef {b : RequestMocker} :
    ∀ {l : List RequestMocker} {seen : List Nat}, b ∈ dedupByRef seen l → b ∈ l := by
  intro l
  induction l with
  | nil => intro seen h; simp [dedupByRef] at h
  | cons x t ih =>
      intro seen h
      simp only [dedupByRef] at h
      by_cases hc : refSeen x.ref seen
      · rw [if_pos hc] at h
        exact List.mem_cons_of_mem _ (ih h)
      · rw [if_neg hc] at h
        rcases List.mem_cons.mp h with h | h
        · exact h ▸ List.mem_cons_self x t
        · exact List.mem_cons_of_mem _ (ih h)

theorem dedupByRef_eq_self :
    ∀ (l : List RequestMocker) (seen : List Nat),
      (∀ b ∈ l, b.ref ∉ seen) → (l.map RequestMocker.ref).Nodup →
      dedupByRef seen l = l := by
  intro l
  induction l with
  | nil => intro seen _ _; rfl
  | cons x t ih =>
      intro seen hseen hnd
      have hx : x.ref ∉ seen := hseen x (List.mem_cons_self x t)
      have hc : ¬ (refSeen x.ref seen = true) := fun hcc => hx ((refSeen_iff _ _).mp hcc)
      simp only [dedupByRef, if_neg hc]
      simp only [List.map_cons, List.nodup_cons] at hnd
      congr 1
      apply ih
      · intro b hb hmem
        rcases List.mem_cons.mp hmem with hmem | hmem
        · exact hnd.1 (hmem ▸ List.mem_map_of_mem RequestMocker.ref hb)
        · exact hseen b (List.mem_cons_of_mem _ hb) hmem
      · exact hnd.2

theorem jsUnion_eq_append {xs ys : List RequestMocker}
    (h : ((xs ++ ys).map RequestMocker.ref).Nodup) : jsUnion xs ys = xs ++ ys := by
  unfold jsUnion
  exact dedupByRef_eq_self (xs ++ ys) [] (by intro b _ hb; simp at hb) h

theorem mem_jsUnion {xs ys : List RequestMocker} {b : RequestMocker}
    (h : b ∈ jsUnion xs ys) : b ∈ xs ∨ b ∈ ys := by
  have := @mem_of_mem_dedupByRef b (xs ++ ys) [] h
  exact List.mem_append.mp this

theorem collectMethods_spec (gen : GenFn) (jp : JsonParseFn) (fmts : Formats) (rf : String)
    (uri : String) :
    ∀ (l : List MethodNode) (c : Nat),
      c ≤ (collectMethods gen jp fmts rf uri l c).2 ∧
      (∀ b ∈ (collectMethods gen jp fmts rf uri l c).1,
          c ≤ b.ref ∧ b.ref < (collectMethods gen jp fmts rf uri l c).2 ∧ b.uri = uri) ∧
      ((collectMethods gen jp fmts rf uri l c).1.map RequestMocker.ref).Nodup ∧
      (collectMethods gen jp fmts rf uri l c).1.map (fun b => (b.uri, b.method))
        = (l.filter methodQualifies).map (fun m => (uri, m.method.getD "")) := by
  intro l
  induction l with
  | nil =>
      intro c
      simp [collectMethods]
  | cons m t ih =>
      intro c
      by_cases hq : methodQualifies m
      · have e : collectMethods gen jp fmts rf uri (m :: t) c =
            (buildMocker fmts rf c uri (m.method.getD "")
                (getResponsesByCode jp (m.responses.getD [])).1
              :: (collectMethods gen jp fmts rf uri t (c + 1)).1,
             (collectMethods gen jp fmts rf uri t (c + 1)).2) := by
          simp [collectMethods, hq]
        obtain ⟨h1, h2, h3, h4⟩ := ih (c + 1)
        rw [e]
        refine ⟨by omega, ?_, ?_, ?_⟩
        · intro b hb
          rcases List.mem_cons.mp hb with hb | hb
          · subst hb
            have hrc : (buildMocker fmts rf c uri (m.method.getD "")
                (getResponsesByCode jp (m.responses.getD [])).1).ref = c := rfl
            rw [hrc]
            exact ⟨le_refl _, by omega, rfl⟩
          · obtain ⟨ha, hb', hu⟩ := h2 b hb
            exact ⟨by omega, hb', hu⟩
        · simp only [List.map_cons, List.nodup_cons]
          refine ⟨?_, h3⟩
          intro hmem
          obtain ⟨b, hb, hrb⟩ := List.mem_map.mp hmem
          obtain ⟨ha, _, _⟩ := h2 b hb
          rw [show (buildMocker fmts rf c uri (m.method.getD "")
              (getResponsesByCode jp (m.responses.getD [])).1).ref = c from rfl] at hrb
          omega
        · simp only [List.map_cons, List.filter_cons, hq, if_true, h4]
          rfl
      · have e : collectMethods gen jp fmts rf uri (m :: t) c =
            collectMethods gen jp fmts rf uri t c := by
          simp [collectMethods, hq]
        obtain ⟨h1, h2, h3, h4⟩ := ih c
        rw [e]
        refine ⟨h1, h2, h3, ?_⟩
        simp [List.filter_cons, hq, h4]

theorem collapseAux_head_ne : ∀ l : List Char, (collapseAux true l).head? ≠ some '/' := by
  intro l
  induction l with
  | nil => simp [collapseAux]
  | cons c t ih =>
      by_cases hc : c = '/'
      · subst hc
        simpa [collapseAux] using ih
      · simp [collapseAux, hc]

theorem hasDS_collapseAux : ∀ (l : List Char) (prev : Bool),
    hasDoubleSlashCs (collapseAux prev l) = false := by
  intro l
  induction l with
  | nil => intro prev; simp [collapseAux, hasDoubleSlashCs]
  | cons c t ih =>
      intro prev
      by_cases hc : c = '/'
      · subst hc
        cases prev with
        | true => simpa [collapseAux] using ih true
        | false =>
            simp only [collapseAux, if_pos rfl, Bool.false_eq_true, if_false]
            have hh := collapseAux_head_ne t
            cases hr : collapseAux true t with
            | nil => simp [hasDoubleSlashCs]
            | cons b t2 =>
                rw [hr] at hh
                simp only [List.head?] at hh
                have hb : (b = '/') = False := by
                  simp only [eq_iff_iff, iff_false]
                  intro hbe
                  exact hh (by rw [hbe])
                have := ih true
                rw [hr] at this
                simp [hasDoubleSlashCs, hb, this]
      · simp only [collapseAux, if_neg hc]
        cases hr : collapseAux false t with
        | nil => simp [hasDoubleSlashCs]
        | cons b t2 =>
            have := ih false
            rw [hr] at this
            simp [hasDoubleSlashCs, hc, this]

theorem startsWithSlash_collapse {l : List Char} :
    startsWithSlash ⟨collapseAux false ('/' :: l)⟩ = true := by
  simp [collapseAux, startsWithSlash]

theorem uriOk_resolveUri (parent seg : String) (ps : List String)
    (h : startsWithSlash parent = true) : uriOk (resolveUri parent seg ps) = true := by
  obtain ⟨t, ht⟩ : ∃ t, parent.data = '/' :: t := by
    unfold startsWithSlash at h
    cases hd : parent.data with
    | nil => rw [hd] at h; simp at h
    | cons a t =>
        rw [hd] at h
        simp only [decide_eq_true_eq] at h
        exact ⟨t, by simp [hd, h]⟩
  have hdata : (parent ++ "/" ++ rewriteParams seg ps).data
      = '/' :: (t ++ '/' :: (rewriteParams seg ps).data) := by
    rw [String.data_append, String.data_append, ht]
    simp
  unfold resolveUri collapseSlashes
  rw [hdata]
  unfold uriOk
  rw [Bool.and_eq_true]
  refine ⟨startsWithSlash_collapse, ?_⟩
  rw [show (⟨collapseAux false ('/' :: (t ++ '/' :: (rewriteParams seg ps).data))⟩ : String).data
      = collapseAux false ('/' :: (t ++ '/' :: (rewriteParams seg ps).data)) from rfl]
  rw [hasDS_collapseAux]
  rfl

theorem jsUnion_nil_left {bs : List RequestMocker}
    (h : (bs.map RequestMocker.ref).Nodup) : jsUnion [] bs = bs := by
  have h2 : ((([] : List RequestMocker) ++ bs).map RequestMocker.ref).Nodup := by simpa using h
  simpa using jsUnion_eq_append h2

theorem jsUnion_nil_right {bs : List RequestMocker}
    (h : (bs.map RequestMocker.ref).Nodup) : jsUnion bs [] = bs := by
  have h2 : ((bs ++ ([] : List RequestMocker)).map RequestMocker.ref).Nodup := by simpa using h
  have := jsUnion_eq_append h2
  simpa using this

theorem bundlesSpec_nil (c : Nat) (uri : String) : BundlesSpec [] c c uri 0 := by
  refine ⟨le_refl _, ?_, ?_, rfl⟩
  · intro b hb; cases hb
  · simp

theorem bundlesSpec_mono {bs : List RequestMocker} {c c2 : Nat} {uri uri' : String} {k : Nat}
    (h : BundlesSpec bs c c2 uri' k) (hok : uriOk uri = true → uriOk uri' = true) :
    BundlesSpec bs c c2 uri k := by
  obtain ⟨h1, h2, h3, h4⟩ := h
  exact ⟨h1, fun b hb => ⟨(h2 b hb).1, fun h0 => (h2 b hb).2 (hok h0)⟩, h3, h4⟩

theorem bundlesSpec_union {bs1 bs2 : List RequestMocker} {c c1 c2 : Nat} {uri : String}
    {k1 k2 : Nat} (h1 : BundlesSpec bs1 c c1 uri k1) (h2 : BundlesSpec bs2 c1 c2 uri k2) :
    BundlesSpec (jsUnion bs1 bs2) c c2 uri (k1 + k2) := by
  obtain ⟨hc1, hm1, hn1, hl1⟩ := h1
  obtain ⟨hc2, hm2, hn2, hl2⟩ := h2
  have hnd : ((bs1 ++ bs2).map RequestMocker.ref).Nodup := by
    rw [List.map_append]
    refine List.Nodup.append hn1 hn2 ?_
    intro r hr1 hr2
    obtain ⟨b1, hb1, hb1r⟩ := List.mem_map.mp hr1
    obtain ⟨b2, hb2, hb2r⟩ := List.mem_map.mp hr2
    obtain ⟨⟨hlo1, hhi1⟩, _⟩ := hm1 b1 hb1
    obtain ⟨⟨hlo2, hhi2⟩, _⟩ := hm2 b2 hb2
    omega
  rw [jsUnion_eq_append hnd]
  refine ⟨by omega, ?_, hnd, ?_⟩
  · intro b hb
    rcases List.mem_append.mp hb with hb | hb
    · obtain ⟨⟨hlo, hhi⟩, hu⟩ := hm1 b hb
      exact ⟨⟨hlo, by omega⟩, hu⟩
    · obtain ⟨⟨hlo, hhi⟩, hu⟩ := hm2 b hb
      exact ⟨⟨by omega, hhi⟩, hu⟩
  · rw [List.length_append, hl1, hl2]

theorem collectMethods_bundlesSpec (gen : GenFn) (jp : JsonParseFn) (fmts : Formats)
    (rf : String) {uri uri0 : String} (hok : uriOk uri0 = true → uriOk uri = true)
    (l : List MethodNode) (c : Nat) :
    BundlesSpec (collectMethods gen jp fmts rf uri l c).1 c
      (collectMethods gen jp fmts rf uri l c).2 uri0 ((l.filter methodQualifies).length) := by
  obtain ⟨h1, h2, h3, h4⟩ := collectMethods_spec gen jp fmts rf uri l c
  refine ⟨h1, ?_, h3, ?_⟩
  · intro b hb
    obtain ⟨ha, hbb, hu⟩ := h2 b hb
    exact ⟨⟨ha, hbb⟩, fun h0 => hu ▸ hok h0⟩
  · have := congrArg List.length h4
    simpa using this

theorem uriOk_nodeUri (uri : String) (ru : Option String) (up : Option (List String))
    (h0 : uriOk uri = true) : uriOk (nodeUri uri ru up) = true := by
  unfold nodeUri
  cases ru with
  | none => exact h0
  | some seg =>
      by_cases hs : seg = ""
      · simpa [hs] using h0
      · simp only [hs, if_false]
        refine uriOk_resolveUri uri seg (up.getD []) ?_
        unfold uriOk at h0
        exact (Bool.and_eq_true _ _).mp h0 |>.1

mutual

theorem collectNode_inv (gen : GenFn) (jp : JsonParseFn) (fmts : Formats) (rf : String)
    (n : SpecNode) (uri : String) (c : Nat) :
    BundlesSpec (collectNode gen jp fmts rf n uri c).1 c
      (collectNode gen jp fmts rf n uri c).2 uri (countNode n) := by
  cases n with
  | mk ru up ms rs =>
      have hok : uriOk uri = true → uriOk (nodeUri uri ru up) = true :=
        uriOk_nodeUri uri ru up
      cases ms with
      | none =>
          cases rs with
          | none =>
              have e : collectNode gen jp fmts rf (SpecNode.mk ru up none none) uri c
                  = ([], c) := by
                simp [collectNode, jsUnion, dedupByRef]
              rw [e]
              simpa [countNode] using bundlesSpec_nil c uri
          | some lr =>
              obtain ⟨hspec, hle⟩ := collectList_inv gen jp fmts rf lr
                (nodeUri uri ru up) c c [] 0 (bundlesSpec_nil c _)
              have e : collectNode gen jp fmts rf (SpecNode.mk ru up none (some lr)) uri c
                  = (jsUnion []
                      (collectList gen jp fmts rf lr (nodeUri uri ru up) c []).1,
                     (collectList gen jp fmts rf lr (nodeUri uri ru up) c []).2) := by
                simp [collectNode, jsUnion, dedupByRef]
              rw [e]
              have hnd := hspec.2.2.1
              rw [jsUnion_nil_left hnd]
              have := bundlesSpec_mono hspec hok
              simpa [countNode] using this
      | some lm =>
          cases rs with
          | none =>
              have hms := collectMethods_bundlesSpec gen jp fmts rf hok lm c
              have e : collectNode gen jp fmts rf (SpecNode.mk ru up (some lm) none) uri c
                  = (jsUnion (jsUnion []
                      (collectMethods gen jp fmts rf (nodeUri uri ru up) lm c).1) [],
                     (collectMethods gen jp fmts rf (nodeUri uri ru up) lm c).2) := by
                simp [collectNode]
              rw [e]
              have hnd := hms.2.2.1
              rw [jsUnion_nil_left hnd, jsUnion_nil_right hnd]
              simpa [countNode] using hms
          | some lr =>
              have hms := collectMethods_bundlesSpec gen jp fmts rf hok lm c
              obtain ⟨hspec, hle⟩ := collectList_inv gen jp fmts rf lr (nodeUri uri ru up)
                (collectMethods gen jp fmts rf (nodeUri uri ru up) lm c).2
                (collectMethods gen jp fmts rf (nodeUri uri ru up) lm c).2 [] 0
                (bundlesSpec_nil _ _)
              have e : collectNode gen jp fmts rf (SpecNode.mk ru up (some lm) (some lr)) uri c
                  = (jsUnion (jsUnion []
                      (collectMethods gen jp fmts rf (nodeUri uri ru up) lm c).1)
                      (collectList gen jp fmts rf lr (nodeUri uri ru up)
                        (collectMethods gen jp fmts rf (nodeUri uri ru up) lm c).2 []).1,
                     (collectList gen jp fmts rf lr (nodeUri uri ru up)
                        (collectMethods gen jp fmts rf (nodeUri uri ru up) lm c).2 []).2) := by
                simp [collectNode]
              rw [e]
              have hndm := hms.2.2.1
              rw [jsUnion_nil_left hndm]
              have hunion := bundlesSpec_union hms (bundlesSpec_mono hspec hok)
              simpa [countNode] using hunion

theorem collectList_inv (gen : GenFn) (jp : JsonParseFn) (fmts : Formats) (rf : String)
    (l : List SpecNode) (uri : String) (c c0 : Nat) (acc : List RequestMocker) (ka : Nat)
    (hacc : BundlesSpec acc c0 c uri ka) :
    (BundlesSpec (collectList gen jp fmts rf l uri c acc).1 c0
      (collectList gen jp fmts rf l uri c acc).2 uri (ka + countList l) ∧
     c ≤ (collectList gen jp fmts rf l uri c acc).2) := by
  cases l with
  | nil =>
      have e : collectList gen jp fmts rf [] uri c acc = (acc, c) := by
        simp [collectList]
      rw [e]
      exact ⟨by simpa [countList] using hacc, le_refl _⟩
  | cons n t =>
      have hnode := collectNode_inv gen jp fmts rf n uri c
      have hacc2 := bundlesSpec_union hacc hnode
      obtain ⟨hspec, hle⟩ := collectList_inv gen jp fmts rf t uri
        (collectNode gen jp fmts rf n uri c).2 c0
        (jsUnion acc (collectNode gen jp fmts rf n uri c).1) (ka + countNode n) hacc2
      have e : collectList gen jp fmts rf (n :: t) uri c acc
          = collectList gen jp fmts rf t uri (collectNode gen jp fmts rf n uri c).2
              (jsUnion acc (collectNode gen jp fmts rf n uri c).1) := by
        simp [collectList]
      rw [e]
      refine ⟨?_, le_trans hnode.1 hle⟩
      have harr : ka + countNode n + countList t = ka + countList (n :: t) := by
        simp [countList]
        omega
      rw [← harr]
      exact hspec

end

theorem runFilesAux_ok (gen : GenFn) (jp : JsonParseFn)
    (parse : String → Except String ApiData) (opts : PipelineOptions) :
    ∀ (files : List String) (c c0 : Nat) (acc : List RequestMocker) (ka : Nat),
      (∀ f ∈ files, ∃ d, parse f = Except.ok d) →
      BundlesSpec acc c0 c "x" ka →
      ∃ res c2, runFilesAux gen jp parse opts files c acc = .ok res ∧
        BundlesSpec res c0 c2 "x" (ka + (files.map (countFile parse)).sum) ∧ c ≤ c2 := by
  intro files
  induction files with
  | nil =>
      intro c c0 acc ka _ hacc
      refine ⟨acc, c, by simp [runFilesAux], by simpa using hacc, le_refl _⟩
  | cons f rest ih =>
      intro c c0 acc ka hall hacc
      obtain ⟨d, hd⟩ := hall f (List.mem_cons_self f rest)
      have hnode := collectNode_inv gen jp opts.formats f d.node
        (baseUri opts.useApiVersion d.version) c
      have hnode2 := @bundlesSpec_mono _ _ _ "x" _ _ hnode
        (by intro hx; exact absurd hx (by decide))
      have hacc2 := bundlesSpec_union hacc hnode2
      obtain ⟨res, c2, hrun, hspec, hle⟩ := ih
        (collectNode gen jp opts.formats f d.node (baseUri opts.useApiVersion d.version) c).2
        c0
        (jsUnion acc (collectNode gen jp opts.formats f d.node
          (baseUri opts.useApiVersion d.version) c).1)
        (ka + countNode d.node)
        (fun f' hf' => hall f' (List.mem_cons_of_mem _ hf')) hacc2
      refine ⟨res, c2, ?_, ?_, le_trans hnode.1 hle⟩
      · simp only [runFilesAux, hd]
        exact hrun
      · have harr : ka + countNode d.node + (rest.map (countFile parse)).sum
            = ka + ((f :: rest).map (countFile parse)).sum := by
          simp [countFile, hd]
          omega
        rw [← harr]
        exact hspec

theorem runFilesAux_err (gen : GenFn) (jp : JsonParseFn)
    (parse : String → Except String ApiData) (opts : PipelineOptions) :
    ∀ (files : List String) (c : Nat) (acc : List RequestMocker),
      (∃ f ∈ files, ∀ d, parse f ≠ Except.ok d) →
      ∃ e, runFilesAux gen jp parse opts files c acc = .error e := by
  intro files
  induction files with
  | nil =>
      intro c acc h
      obtain ⟨f, hf, _⟩ := h
      cases hf
  | cons f rest ih =>
      intro c acc h
      cases hp : parse f with
      | error e =>
          exact ⟨"Error parsing: " ++ e, by simp [runFilesAux, hp]⟩
      | ok d =>
          obtain ⟨f', hf', hne⟩ := h
          rcases List.mem_cons.mp hf' with hf' | hf'
          · exact absurd hp (hf' ▸ hne d)
          · obtain ⟨e, he⟩ := ih
              (collectNode gen jp opts.formats f d.node
                (baseUri opts.useApiVersion d.version) c).2
              (jsUnion acc (collectNode gen jp opts.formats f d.node
                (baseUri opts.useApiVersion d.version) c).1)
              ⟨f', hf', hne⟩
            refine ⟨e, ?_⟩
            simp only [runFilesAux, hp]
            exact he

/-- C1 counterexample: with two files each declaring /ping with GET and
disjoint status codes, the delivered collection holds TWO bundles at the
same (uri, method) pair, one with code 200 and one with code 503 — the
claimed union into a single bundle keyed by deep (uri, method) equality does
not take place, and the pair list of the delivered collection is not
duplicate-free. -/
theorem c1_counterexample :
    ((generateFromFiles genNull jpFail parsePing noOpts ["a.raml", "b.raml"]).callbackCalls.map
        (fun l => l.map (fun b => (b.uri, b.method, b.responsesByCode.map Prod.fst)))
      = [[("/ping", "GET", [200]), ("/ping", "GET", [503])]]) ∧
    ¬ (((generateFromFiles genNull jpFail parsePing noOpts
          ["a.raml", "b.raml"]).callbackCalls.headD []).map
        (fun b => (b.uri, b.method))).Nodup :=
  ⟨by decide, by decide⟩

/-- C1 amended: bundles are never merged by (uri, method) — lodash union
deduplicates by object reference and every bundle is a freshly constructed
object — so when every file parses, the callback is invoked once with a
collection holding exactly one bundle per qualifying method node across all
files (pairwise-distinct object references), and the same (uri, method)
arising from different branches or files stays as distinct bundles, each
keeping its own response map. -/
theorem c1_amended (gen : GenFn) (jp : JsonParseFn)
    (parse : String → Except String ApiData) (opts : PipelineOptions) (files : List String)
    (h : ∀ f ∈ files, ∃ d, parse f = Except.ok d) :
    ∃ res, (generateFromFiles gen jp parse opts files).callbackCalls = [res] ∧
      res.length = (files.map (countFile parse)).sum ∧
      (res.map RequestMocker.ref).Nodup := by
  obtain ⟨res, c2, hrun, hspec, _⟩ :=
    runFilesAux_ok gen jp parse opts files 0 0 [] 0 h (bundlesSpec_nil 0 "x")
  refine ⟨res, ?_, ?_, hspec.2.2.1⟩
  · simp [generateFromFiles, hrun]
  · simpa using hspec.2.2.2

/-- Witness for the amended C1 at the two-ping-file input. -/
theorem c1_amended_witness :
    ∃ res, (generateFromFiles genNull jpFail parsePing noOpts
        ["a.raml", "b.raml"]).callbackCalls = [res] ∧
      res.length = (["a.raml", "b.raml"].map (countFile parsePing)).sum ∧
      (res.map RequestMocker.ref).Nodup := by
  refine c1_amended genNull jpFail parsePing noOpts ["a.raml", "b.raml"] ?_
  intro f hf
  simp only [List.mem_cons, List.not_mem_nil, or_false] at hf
  rcases hf with rfl | rfl
  · exact ⟨apiPing200, rfl⟩
  · exact ⟨apiPing503, rfl⟩

/-- C2 counterexample: when one of the files fails to parse, the caller
callback is never invoked at all — it does not receive the error (nor
anything else); the error is only written to the console by the completion
handler. -/
theorem c2_counterexample :
    (generateFromFiles genNull jpFail parsePing noOpts
        ["bad.raml", "a.raml"]).callbackCalls = [] ∧
    (generateFromFiles genNull jpFail parsePing noOpts
        ["bad.raml", "a.raml"]).consoleLog = ["Error parsing: boom"] :=
  ⟨rfl, by decide⟩

/-- C2 amended: if any file fails to parse, the aggregation aborts without
delivering a partial collection, but the callback is not invoked at all —
the error is reported only through console output. -/
theorem c2_amended (gen : GenFn) (jp : JsonParseFn)
    (parse : String → Except String ApiData) (opts : PipelineOptions) (files : List String)
    (h : ∃ f ∈ files, ∀ d, parse f ≠ Except.ok d) :
    (generateFromFiles gen jp parse opts files).callbackCalls = [] ∧
    ∃ e, (generateFromFiles gen jp parse opts files).consoleLog = [e] := by
  obtain ⟨e, he⟩ := runFilesAux_err gen jp parse opts files 0 [] h
  constructor
  · simp [generateFromFiles, he]
  · exact ⟨e, by simp [generateFromFiles, he]⟩

/-- Witness for the amended C2 at an input with one unparseable file. -/
theorem c2_amended_witness :
    (generateFromFiles genNull jpFail parsePing noOpts
        ["bad.raml", "a.raml"]).callbackCalls = [] ∧
    ∃ e, (generateFromFiles genNull jpFail parsePing noOpts
        ["bad.raml", "a.raml"]).consoleLog = [e] := by
  refine c2_amended genNull jpFail parsePing noOpts ["bad.raml", "a.raml"] ?_
  refine ⟨"bad.raml", by simp, ?_⟩
  intro d hd
  simp [parsePing] at hd

theorem omin_assoc (a b d : Option Int) : omin (omin a b) d = omin a (omin b d) := by
  cases a <;> cases b <;> cases d <;> simp [omin, min_assoc]

theorem omin_wf {a b : Option Int}
    (ha : ∀ m, a = some m → is2xx m = true) (hb : ∀ m, b = some m → is2xx m = true) :
    ∀ m, omin a b = some m → is2xx m = true := by
  intro m h
  cases a with
  | none => exact hb m h
  | some x =>
      cases b with
      | none =>
          simp only [omin, Option.some.injEq] at h
          rw [← h]
          exact ha x rfl
      | some y =>
          simp only [omin, Option.some.injEq] at h
          rcases min_choice x y with hm | hm
          · rw [← h, hm]; exact ha x rfl
          · rw [← h, hm]; exact hb y rfl

theorem addCandidate_cur (fmts : Formats) (rf : String) (st : BuildState) (cand : Cand)
    (hwf : ∀ m, st.cur = some m → is2xx m = true) :
    (addCandidate fmts rf st cand).cur = omin st.cur (code2xxOpt cand.code) := by
  unfold addCandidate defaultCheck code2xxOpt
  cases hcur : st.cur with
  | none =>
      by_cases h2 : is2xx cand.code <;> simp [hcur, h2, omin]
  | some m =>
      have hm := hwf m hcur
      have hm0 : ¬ (m = 0) := by
        intro h0
        rw [h0] at hm
        simp [is2xx] at hm
      by_cases h2 : is2xx cand.code
      · by_cases hgt : m > cand.code
        · simp [hcur, h2, hm0, hgt, omin]
          omega
        · simp [hcur, h2, hm0, hgt, omin]
          omega
      · simp [hcur, h2, omin]

theorem addCandidate_wf (fmts : Formats) (rf : String) (st : BuildState) (cand : Cand)
    (hwf : ∀ m, st.cur = some m → is2xx m = true) :
    ∀ m, (addCandidate fmts rf st cand).cur = some m → is2xx m = true := by
  rw [addCandidate_cur fmts rf st cand hwf]
  refine omin_wf hwf ?_
  intro m h
  unfold code2xxOpt at h
  by_cases h2 : is2xx cand.code
  · rw [if_pos h2, Option.some.injEq] at h
    exact h ▸ h2
  · rw [if_neg h2] at h
    cases h

theorem addCandidates_cur (fmts : Formats) (rf : String) :
    ∀ (cands : List Cand) (st : BuildState),
      (∀ m, st.cur = some m → is2xx m = true) →
      (addCandidates fmts rf st cands).cur = omin st.cur (min2xx (cands.map Cand.code)) := by
  intro cands
  induction cands with
  | nil =>
      intro st _
      cases hcur : st.cur <;> simp [addCandidates, min2xx, omin, hcur]
  | cons cand t ih =>
      intro st hwf
      have estep : addCandidates fmts rf st (cand :: t)
          = addCandidates fmts rf (addCandidate fmts rf st cand) t := rfl
      rw [estep, ih (addCandidate fmts rf st cand) (addCandidate_wf fmts rf st cand hwf),
        addCandidate_cur fmts rf st cand hwf, omin_assoc]
      rfl

theorem min2xx_none_iff : ∀ l : List Int, min2xx l = none ↔ ∀ x ∈ l, is2xx x = false := by
  intro l
  induction l with
  | nil => simp [min2xx]
  | cons c t ih =>
      by_cases h2 : is2xx c
      · rw [min2xx, show code2xxOpt c = some c from by simp [code2xxOpt, h2]]
        constructor
        · intro h
          cases hm : min2xx t <;> rw [hm] at h <;> simp [omin] at h
        · intro h
          exact absurd (h c (List.mem_cons_self c t)) (by simp [h2])
      · rw [min2xx, show code2xxOpt c = none from by simp [code2xxOpt, h2],
          show omin none (min2xx t) = min2xx t from rfl, ih]
        constructor
        · intro h x hx
          rcases List.mem_cons.mp hx with rfl | hx
          · simpa using h2
          · exact h x hx
        · intro h x hx
          exact h x (List.mem_cons_of_mem _ hx)

theorem min2xx_some : ∀ (l : List Int) (m : Int), min2xx l = some m →
    m ∈ l ∧ is2xx m = true ∧ ∀ x ∈ l, is2xx x = true → m ≤ x := by
  intro l
  induction l with
  | nil => intro m h; simp [min2xx] at h
  | cons c t ih =>
      intro m h
      by_cases h2 : is2xx c
      · rw [min2xx, show code2xxOpt c = some c from by simp [code2xxOpt, h2]] at h
        cases hm : min2xx t with
        | none =>
            rw [hm] at h
            simp only [omin, Option.some.injEq] at h
            refine ⟨?_, ?_, ?_⟩
            · rw [← h]; exact List.mem_cons_self c t
            · rw [← h]; exact h2
            · intro x hx hx2
              rcases List.mem_cons.mp hx with rfl | hx
              · rw [← h]
              · exact absurd hx2 (by simp [(min2xx_none_iff t).mp hm x hx])
        | some mt =>
            rw [hm] at h
            simp only [omin, Option.some.injEq] at h
            obtain ⟨hmem, hmt2, hbound⟩ := ih mt hm
            refine ⟨?_, ?_, ?_⟩
            · rcases min_choice c mt with hmin | hmin
              · rw [← h, hmin]; exact List.mem_cons_self c t
              · rw [← h, hmin]; exact List.mem_cons_of_mem _ hmem
            · rcases min_choice c mt with hmin | hmin
              · rw [← h, hmin]; exact h2
              · rw [← h, hmin]; exact hmt2
            · intro x hx hx2
              rcases List.mem_cons.mp hx with hx | hx
              · rw [← h, hx]; exact min_le_left c mt
              · rw [← h]; exact le_trans (min_le_right c mt) (hbound x hx hx2)
      · rw [min2xx, show code2xxOpt c = none from by simp [code2xxOpt, h2],
          show omin none (min2xx t) = min2xx t from rfl] at h
        obtain ⟨hmem, hm2, hbound⟩ := ih m h
        refine ⟨List.mem_cons_of_mem _ hmem, hm2, ?_⟩
        intro x hx hx2
        rcases List.mem_cons.mp hx with rfl | hx
        · exact absurd hx2 (by simp [h2])
        · exact hbound x hx hx2

theorem addCandidates_mockNone (fmts : Formats) (rf : String) :
    ∀ (cands : List Cand) (st : BuildState),
      (st.cur = none → st.mock = none ∧ st.exampleV = none) →
      ((addCandidates fmts rf st cands).cur = none →
        (addCandidates fmts rf st cands).mock = none ∧
        (addCandidates fmts rf st cands).exampleV = none) := by
  intro cands
  induction cands with
  | nil => intro st h; exact h
  | cons cand t ih =>
      intro st h
      have estep : addCandidates fmts rf st (cand :: t)
          = addCandidates fmts rf (addCandidate fmts rf st cand) t := rfl
      rw [estep]
      apply ih
      intro hcur
      unfold addCandidate at hcur ⊢
      split at hcur
      · next hcond =>
          simp at hcur
      · next hcond =>
          rw [if_neg hcond]
          exact h hcur

theorem lookupCode_setResponse_self (k : Int) (v : MockEntry) :
    ∀ m : List (Int × MockEntry), lookupCode k (setResponse m k v) = some v := by
  intro m
  induction m with
  | nil => simp [setResponse, lookupCode]
  | cons p t ih =>
      by_cases hk : p.1 = k
      · simp [setResponse, hk, lookupCode]
      · simp only [setResponse]
        rw [show (p.1, p.2) = p from rfl]
        simp only [hk, if_false]
        simp [lookupCode, hk, ih]

theorem lookupCode_setResponse_isSome (k k2 : Int) (v : MockEntry) :
    ∀ m : List (Int × MockEntry),
      (lookupCode k2 m).isSome = true → (lookupCode k2 (setResponse m k v)).isSome = true := by
  intro m
  induction m with
  | nil => intro h; simp [lookupCode] at h
  | cons p t ih =>
      intro h
      by_cases hk : p.1 = k
      · by_cases hk2 : k = k2
        · subst hk2
          simp [setResponse, hk, lookupCode]
        · have hp2 : ¬ (p.1 = k2) := by rw [hk]; exact hk2
          simp only [lookupCode, hp2, if_false] at h
          simp [setResponse, hk, lookupCode, hk2, h]
      · simp only [setResponse]
        rw [show (p.1, p.2) = p from rfl]
        simp only [hk, if_false]
        by_cases hp2 : p.1 = k2
        · simp [lookupCode, hp2]
        · simp only [lookupCode, hp2, if_false] at h ⊢
          exact ih h

theorem addCandidate_keeps (fmts : Formats) (rf : String) (st : BuildState) (cand : Cand)
    (k : Int) (h : (lookupCode k st.responsesByCode).isSome = true) :
    (lookupCode k (addCandidate fmts rf st cand).responsesByCode).isSome = true := by
  unfold addCandidate
  split
  · exact lookupCode_setResponse_isSome cand.code k _ st.responsesByCode h
  · exact lookupCode_setResponse_isSome cand.code k _ st.responsesByCode h

theorem addCandidate_self (fmts : Formats) (rf : String) (st : BuildState) (cand : Cand) :
    (lookupCode cand.code (addCandidate fmts rf st cand).responsesByCode).isSome = true := by
  unfold addCandidate
  split
  · rw [lookupCode_setResponse_self]
    rfl
  · rw [lookupCode_setResponse_self]
    rfl

theorem addCandidates_keys (fmts : Formats) (rf : String) :
    ∀ (cands : List Cand) (st : BuildState),
      (∀ cand ∈ cands,
        (lookupCode cand.code (addCandidates fmts rf st cands).responsesByCode).isSome = true) ∧
      (∀ k, (lookupCode k st.responsesByCode).isSome = true →
        (lookupCode k (addCandidates fmts rf st cands).responsesByCode).isSome = true) := by
  intro cands
  induction cands with
  | nil =>
      intro st
      refine ⟨?_, ?_⟩
      · intro cand hc; cases hc
      · intro k h; exact h
  | cons cand t ih =>
      intro st
      have estep : addCandidates fmts rf st (cand :: t)
          = addCandidates fmts rf (addCandidate fmts rf st cand) t := rfl
      rw [estep]
      obtain ⟨ih1, ih2⟩ := ih (addCandidate fmts rf st cand)
      constructor
      · intro c hc
        rcases List.mem_cons.mp hc with rfl | hc
        · exact ih2 c.code (addCandidate_self fmts rf st c)
        · exact ih1 c hc
      · intro k h
        exact ih2 k (addCandidate_keeps fmts rf st cand k h)

/-- C3 confirmed: for every bundle the default code equals the lowest 2xx
status code among the candidates (an order-independent value, characterized
as a member that is 2xx and below every 2xx member); when no 2xx candidate
exists the default code stays unset and neither the default mock nor the
default example is populated, while every candidate code remains present in
the response map. -/
theorem c3_default_selection (fmts : Formats) (rf : String) (ref : Nat) (uri verb : String)
    (cands : List Cand) :
    ((buildMocker fmts rf ref uri verb cands).defaultCode = min2xx (cands.map Cand.code)) ∧
    (∀ m, min2xx (cands.map Cand.code) = some m →
        m ∈ cands.map Cand.code ∧ is2xx m = true ∧
        ∀ x ∈ cands.map Cand.code, is2xx x = true → m ≤ x) ∧
    ((∀ x ∈ cands.map Cand.code, is2xx x = false) →
        (buildMocker fmts rf ref uri verb cands).defaultCode = none ∧
        (buildMocker fmts rf ref uri verb cands).mock = none ∧
        (buildMocker fmts rf ref uri verb cands).exampleV = none) ∧
    ((∃ x ∈ cands.map Cand.code, is2xx x = true) →
        ∃ m, (buildMocker fmts rf ref uri verb cands).defaultCode = some m) ∧
    (∀ cand ∈ cands,
        (lookupCode cand.code
          (buildMocker fmts rf ref uri verb cands).responsesByCode).isSome = true) := by
  have hinit : ∀ m, (initBuildState.cur = some m) → is2xx m = true := by
    intro m h
    cases h
  have hcur := addCandidates_cur fmts rf cands initBuildState hinit
  rw [show omin initBuildState.cur (min2xx (cands.map Cand.code))
    = min2xx (cands.map Cand.code) from rfl] at hcur
  have hdc : (buildMocker fmts rf ref uri verb cands).defaultCode
      = min2xx (cands.map Cand.code) := by
    unfold buildMocker
    simp only []
    rw [hcur]
    cases hm : min2xx (cands.map Cand.code) with
    | none => rfl
    | some m =>
        have hm2 := (min2xx_some (cands.map Cand.code) m hm).2.1
        have hm0 : ¬ (m = 0) := by
          intro h0
          rw [h0] at hm2
          simp [is2xx] at hm2
        simp [hm0]
  refine ⟨hdc, min2xx_some (cands.map Cand.code), ?_, ?_, ?_⟩
  · intro hno
    have hnone : min2xx (cands.map Cand.code) = none := (min2xx_none_iff _).mpr hno
    refine ⟨hdc.trans hnone, ?_⟩
    have hmock := addCandidates_mockNone fmts rf cands initBuildState
      (by intro _; exact ⟨rfl, rfl⟩) (by rw [hcur]; exact hnone)
    unfold buildMocker
    simp only []
    exact hmock
  · intro hex
    cases hm : min2xx (cands.map Cand.code) with
    | none =>
        obtain ⟨x, hx, hx2⟩ := hex
        have := (min2xx_none_iff _).mp hm x hx
        rw [hx2] at this
        cases this
    | some m => exact ⟨m, hdc.trans hm⟩
  · intro cand hc
    have := (addCandidates_keys fmts rf cands initBuildState).1 cand hc
    unfold buildMocker
    simp only []
    exact this

/-- Witness for C3 at the responses 404, 201, 200: the default code is 200
even though 404 and 201 are retained in the response map. -/
theorem c3_default_selection_witness :
    (buildMocker [] "f" 0 "/x" "GET"
      [⟨404, none, none⟩, ⟨201, none, none⟩, ⟨200, none, none⟩]).defaultCode = some 200 ∧
    (lookupCode 404 (buildMocker [] "f" 0 "/x" "GET"
      [⟨404, none, none⟩, ⟨201, none, none⟩, ⟨200, none, none⟩]).responsesByCode).isSome = true ∧
    (lookupCode 201 (buildMocker [] "f" 0 "/x" "GET"
      [⟨404, none, none⟩, ⟨201, none, none⟩, ⟨200, none, none⟩]).responsesByCode).isSome = true := by
  have h := c3_default_selection [] "f" 0 "/x" "GET"
    [⟨404, none, none⟩, ⟨201, none, none⟩, ⟨200, none, none⟩]
  refine ⟨h.1.trans (by decide), ?_, ?_⟩
  · exact h.2.2.2.2 ⟨404, none, none⟩ (by simp)
  · exact h.2.2.2.2 ⟨201, none, none⟩ (by simp)

theorem lookupBody_none_of_nomatch :
    ∀ l : List (String × BodyNode), (∀ kv ∈ l, mediaMatch kv.1 = false) →
      lookupBody "application/json" l = none := by
  intro l
  induction l with
  | nil => intro _; rfl
  | cons kv t ih =>
      intro h
      have hk : ¬ (kv.1 = "application/json") := by
        intro he
        have := h kv (List.mem_cons_self kv t)
        rw [he] at this
        have hm : mediaMatch "application/json" = true := by decide
        rw [hm] at this
        cases this
      rw [show lookupBody "application/json" (kv :: t)
          = if kv.1 = "application/json" then some kv.2
            else lookupBody "application/json" t from rfl, if_neg hk]
      exact ih (fun kv2 h2 => h kv2 (List.mem_cons_of_mem _ h2))

theorem selectBody_eq_find (body : Option (List (String × BodyNode))) :
    selectBody body = ((body.getD []).find? (fun kv => mediaMatch kv.1)).map Prod.snd := by
  cases hf : (body.getD []).find? (fun kv => mediaMatch kv.1) with
  | some kv =>
      unfold selectBody
      rw [hf]
      rfl
  | none =>
      unfold selectBody
      rw [hf]
      cases body with
      | none => rfl
      | some l =>
          show lookupBody "application/json" l = none
          have hf2 : List.find? (fun kv => mediaMatch kv.1) l = none := by
            simpa using hf
          have hall : ∀ kv ∈ l, mediaMatch kv.1 = false := by
            intro kv hkv
            have := List.find?_eq_none.mp hf2 kv hkv
            simpa using this
          exact lookupBody_none_of_nomatch l hall

theorem extractEntry_eq_spec (jp : JsonParseFn) (codeStr : String)
    (respOpt : Option ResponseNode) :
    (extractEntry jp codeStr respOpt).1 = extractEntrySpec jp codeStr respOpt := by
  cases respOpt with
  | none => rfl
  | some resp =>
      simp only [extractEntry, extractEntrySpec]
      rw [selectBody_eq_find resp.body]
      cases hn : jsNumberInt? codeStr with
      | none =>
          cases hf : (resp.body.getD []).find? (fun kv => mediaMatch kv.1) with
          | none => rfl
          | some kv => rfl
      | some n =>
          cases hf : (resp.body.getD []).find? (fun kv => mediaMatch kv.1) with
          | none => rfl
          | some kv =>
              simp only [Option.map_some']
              cases hs : kv.2.schema with
              | none => rfl
              | some s =>
                  by_cases he : s = ""
                  · simp [he]
                  · cases hjp : jp s with
                    | none => simp [he, hjp]
                    | some v => simp [he, hjp]

theorem getResponsesByCode_eq_spec (jp : JsonParseFn) :
    ∀ rs : List (String × Option ResponseNode),
      (getResponsesByCode jp rs).1
        = rs.filterMap (fun e => extractEntrySpec jp e.1 e.2) := by
  intro rs
  induction rs with
  | nil => rfl
  | cons e t ih =>
      obtain ⟨codeStr, respOpt⟩ := e
      rw [show getResponsesByCode jp ((codeStr, respOpt) :: t)
          = ((extractEntry jp codeStr respOpt).1.toList ++ (getResponsesByCode jp t).1,
             (extractEntry jp codeStr respOpt).2 ++ (getResponsesByCode jp t).2) from rfl]
      simp only [List.filterMap_cons]
      rw [← extractEntry_eq_spec jp codeStr respOpt]
      cases hx : (extractEntry jp codeStr respOpt).1 with
      | none => simpa using ih
      | some cand => simpa using ih

/-- C4 amended: a ResponseCandidate is produced exactly when the status-code
key coerces to a number and the response has a body whose media type the
code regex accepts; but the selected representative body is the FIRST key in
insertion order matching the regex — plain application/json is not preferred
over an earlier vendor match (the initial application/json assignment is
always overridden by the scan, and is dead code because application/json
itself matches the regex) — and the regex character class excludes the
digits 2-9, so a vendor type such as application/vnd.acme.v2+json is not
accepted. -/
theorem c4_candidate_extraction (jp : JsonParseFn) :
    (∀ rs : List (String × Option ResponseNode),
      (getResponsesByCode jp rs).1
        = rs.filterMap (fun e => extractEntrySpec jp e.1 e.2)) ∧
    (∀ body : Option (List (String × BodyNode)),
      selectBody body = ((body.getD []).find? (fun kv => mediaMatch kv.1)).map Prod.snd) :=
  ⟨getResponsesByCode_eq_spec jp, selectBody_eq_find⟩

/-- C4 counterexample: with both a vendor JSON media type and a plain
application/json body present (vendor first in insertion order), the vendor
body is selected — its example is the one in the produced candidate — and a
body keyed application/vnd.acme.v2+json (which the claim's pattern accepts)
produces no candidate at all because the digit 2 is outside the regex
character class. -/
theorem c4_counterexample :
    ((getResponsesByCode jpFail
        [("200", some { body := some [
            ("application/vnd.acme+json", { schema := none, exampleV := some (.str "vendor") }),
            ("application/json", { schema := none, exampleV := some (.str "plain") })] })]).1.map
      (fun cand => (cand.code, cand.exampleV)) = [(200, some (JsonV.str "vendor"))]) ∧
    mediaMatch "application/json" = true ∧
    ((getResponsesByCode jpFail
        [("200", some { body := some [
            ("application/vnd.acme.v2+json",
              { schema := none, exampleV := some (.str "v2") })] })]).1 = []) :=
  ⟨rfl, by decide, rfl⟩

/-- C5 code bug: invoked with an options object carrying a path but no
valid callback, generate prints the missing-callback diagnostic and the
usage banner, yet still dispatches the pipeline (generateFromPath) — the
early return the diagnostic implies is missing. -/
theorem c5_missing_return :
    generate (some { path := some "test/raml", files := .undef }) .missing
      = { consoleOut := [noCallbackMsg, usageBanner]
          calledGenerateFromPath := some "test/raml"
          calledGenerateFromFiles := none
          callbackCallsDirect := [] } := rfl

/-- C6 amended: a method node contributes exactly one bundle when its verb
field is truthy, the unanchored case-insensitive regex finds
get, post, put or delete inside the verb, and the responses field is
PRESENT — an empty-but-present responses map is truthy in JavaScript, so it
still contributes a bundle (with an empty response map); only an absent
responses field, a falsy verb, or a verb the regex rejects (such as PATCH)
contributes nothing, silently. -/
theorem c6_method_filter (gen : GenFn) (jp : JsonParseFn) (fmts : Formats) (rf : String)
    (uri : String) (l : List MethodNode) (c : Nat) :
    (collectMethods gen jp fmts rf uri l c).1.map (fun b => (b.uri, b.method))
      = (l.filter methodQualifies).map (fun m => (uri, m.method.getD "")) ∧
    (collectMethods gen jp fmts rf uri l c).1.length
      = (l.filter methodQualifies).length := by
  have h := (collectMethods_spec gen jp fmts rf uri l c).2.2.2
  refine ⟨h, ?_⟩
  have := congrArg List.length h
  simpa using this

/-- C6 counterexample: a GET method with an empty (but present) responses
map contributes one bundle — not zero as claimed — while the PATCH part of
the claim does hold (zero bundles). -/
theorem c6_counterexample :
    ((collectMethods genNull jpFail [] "f" "/x"
        [{ method := some "GET", responses := some [] }] 0).1.map
      (fun b => (b.uri, b.method, b.responsesByCode.length))) = [("/x", "GET", 0)] ∧
    ((collectMethods genNull jpFail [] "f" "/x"
        [{ method := some "PATCH", responses := some [("200", none)] }] 0).1.length = 0) :=
  ⟨by decide, by decide⟩

/-- C7 amended: the URI computation rewrites, for each declared parameter
name, only the FIRST occurrence of its placeholder (JavaScript
String.replace with a string pattern), then concatenates
parentUri + '/' + segment and collapses every run of slashes; the resolved
URI of the chain /users, /{id}, /orders is exactly /users/:id/orders,
any resolution whose parent starts with a slash starts with a slash and has
no two consecutive slashes, and every bundle collected under a URI
satisfying the invariant satisfies it as well. -/
theorem c7_uri_resolution :
    (resolveUri (resolveUri (resolveUri "/" "/users" []) "/{id}" ["id"]) "/orders" []
      = "/users/:id/orders") ∧
    (∀ (parent seg : String) (ps : List String), startsWithSlash parent = true →
      uriOk (resolveUri parent seg ps) = true) ∧
    (∀ (gen : GenFn) (jp : JsonParseFn) (fmts : Formats) (rf : String) (n : SpecNode)
        (uri : String) (c : Nat) (b : RequestMocker), uriOk uri = true →
      b ∈ (collectNode gen jp fmts rf n uri c).1 → uriOk b.uri = true) := by
  refine ⟨by decide, uriOk_resolveUri, ?_⟩
  intro gen jp fmts rf n uri c b hok hb
  exact ((collectNode_inv gen jp fmts rf n uri c).2.1 b hb).2 hok

/-- Witness for the amended C7: a concrete resolution and the bundles of a
concrete tree satisfy the URI invariant. -/
theorem c7_uri_resolution_witness :
    uriOk (resolveUri "/users" "/{id}" ["id"]) = true ∧
    (∀ b ∈ (collectNode genNull jpFail [] "a.raml" apiPing200.node "/" 0).1,
      uriOk b.uri = true) := by
  refine ⟨c7_uri_resolution.2.1 "/users" "/{id}" ["id"] (by decide), ?_⟩
  intro b hb
  exact c7_uri_resolution.2.2 genNull jpFail [] "a.raml" apiPing200.node "/" 0 b (by decide) hb

/-- C7 counterexample: when the same placeholder occurs twice in a segment,
only the first occurrence is rewritten, contradicting the claim that every
occurrence is rewritten. -/
theorem c7_counterexample :
    resolveUri "/users" "/{id}/{id}" ["id"] = "/users/:id/{id}" ∧
    resolveUri "/users" "/{id}/{id}" ["id"] ≠ "/users/:id/:id" :=
  ⟨by decide, by decide⟩

theorem collectMethods_gen (g1 g2 : GenFn) (jp : JsonParseFn) (fmts : Formats)
    (rf uri : String) :
    ∀ (l : List MethodNode) (c : Nat),
      collectMethods g1 jp fmts rf uri l c = collectMethods g2 jp fmts rf uri l c := by
  intro l
  induction l with
  | nil => intro c; rfl
  | cons m t ih =>
      intro c
      by_cases hq : methodQualifies m
      · simp only [collectMethods, hq, if_true, ih (c + 1)]
      · simp only [collectMethods, hq, Bool.false_eq_true, if_false, ih c]

mutual

theorem collectNode_gen (g1 g2 : GenFn) (jp : JsonParseFn) (fmts : Formats) (rf : String)
    (n : SpecNode) (uri : String) (c : Nat) :
    collectNode g1 jp fmts rf n uri c = collectNode g2 jp fmts rf n uri c := by
  cases n with
  | mk ru up ms rs =>
      cases ms with
      | none =>
          cases rs with
          | none => simp only [collectNode]
          | some lr =>
              simp only [collectNode]
              rw [collectList_gen g1 g2 jp fmts rf lr (nodeUri uri ru up) c []]
      | some lm =>
          cases rs with
          | none =>
              simp only [collectNode]
              rw [collectMethods_gen g1 g2 jp fmts rf (nodeUri uri ru up) lm c]
          | some lr =>
              simp only [collectNode]
              rw [collectMethods_gen g1 g2 jp fmts rf (nodeUri uri ru up) lm c,
                collectList_gen g1 g2 jp fmts rf lr (nodeUri uri ru up)
                  (collectMethods g2 jp fmts rf (nodeUri uri ru up) lm c).2 []]

theorem collectList_gen (g1 g2 : GenFn) (jp : JsonParseFn) (fmts : Formats) (rf : String)
    (l : List SpecNode) (uri : String) (c : Nat) (acc : List RequestMocker) :
    collectList g1 jp fmts rf l uri c acc = collectList g2 jp fmts rf l uri c acc := by
  cases l with
  | nil => simp only [collectList]
  | cons n t =>
      simp only [collectList]
      rw [collectNode_gen g1 g2 jp fmts rf n uri c,
        collectList_gen g1 g2 jp fmts rf t uri (collectNode g2 jp fmts rf n uri c).2
          (jsUnion acc (collectNode g2 jp fmts rf n uri c).1)]

end

theorem runFilesAux_gen (g1 g2 : GenFn) (jp : JsonParseFn)
    (parse : String → Except String ApiData) (opts : PipelineOptions) :
    ∀ (files : List String) (c : Nat) (acc : List RequestMocker),
      runFilesAux g1 jp parse opts files c acc = runFilesAux g2 jp parse opts files c acc := by
  intro files
  induction files with
  | nil => intro c acc; rfl
  | cons f rest ih =>
      intro c acc
      cases hp : parse f with
      | error e => simp only [runFilesAux, hp]
      | ok d =>
          simp only [runFilesAux, hp]
          rw [collectNode_gen g1 g2 jp opts.formats f d.node
              (baseUri opts.useApiVersion d.version) c,
            ih (collectNode g2 jp opts.formats f d.node
              (baseUri opts.useApiVersion d.version) c).2
              (jsUnion acc (collectNode g2 jp opts.formats f d.node
                (baseUri opts.useApiVersion d.version) c).1)]

/-- C8 confirmed: building the collection never invokes the
schema-to-fixture generator — the whole delivered outcome is the same for
any two generators, so no part of it can depend on a generator invocation —
and the generator runs exactly when a caller forces the stored mock thunk of
an entry whose captured schema is truthy; forcing a thunk whose captured
schema is absent (or falsy) yields null and is generator-independent. -/
theorem c8_lazy_generator :
    (∀ (g1 g2 : GenFn) (jp : JsonParseFn) (parse : String → Except String ApiData)
        (opts : PipelineOptions) (files : List String),
      generateFromFiles g1 jp parse opts files = generateFromFiles g2 jp parse opts files) ∧
    (∀ (g : GenFn) (e : MockEntry), e.schema = none → invokeMockThunk g e = JsonV.null) ∧
    (∀ (g1 g2 : GenFn) (e : MockEntry) (s : JsonV), e.schema = some s →
        jsTruthyJson s = false → invokeMockThunk g1 e = invokeMockThunk g2 e) ∧
    (∀ (g : GenFn) (e : MockEntry) (s : JsonV), e.schema = some s → jsTruthyJson s = false →
        invokeMockThunk g e = JsonV.null) ∧
    (∀ (g : GenFn) (e : MockEntry) (s : JsonV), e.schema = some s → jsTruthyJson s = true →
        invokeMockThunk g e = g s e.formats e.ramlfile) := by
  refine ⟨?_, ?_, ?_, ?_, ?_⟩
  · intro g1 g2 jp parse opts files
    unfold generateFromFiles
    rw [runFilesAux_gen g1 g2 jp parse opts files 0 []]
  · intro g e h
    unfold invokeMockThunk
    rw [h]
  · intro g1 g2 e sv h hf
    unfold invokeMockThunk
    rw [h]
    simp [hf]
  · intro g e sv h hf
    unfold invokeMockThunk
    rw [h]
    simp [hf]
  · intro g e sv h ht
    unfold invokeMockThunk
    rw [h]
    simp [ht]

/-- Witness for C8 at concrete entries: a null-schema entry yields null
without the generator, a truthy-schema entry yields the generator value. -/
theorem c8_lazy_generator_witness :
    invokeMockThunk genNull
      { schema := none, formats := [], ramlfile := "f", exampleV := none } = JsonV.null ∧
    invokeMockThunk genNull
      { schema := some (.obj []), formats := [], ramlfile := "f", exampleV := none }
      = genNull (.obj []) [] "f" :=
  ⟨c8_lazy_generator.2.1 genNull
      { schema := none, formats := [], ramlfile := "f", exampleV := none } rfl,
   c8_lazy_generator.2.2.2.2 genNull
      { schema := some (.obj []), formats := [], ramlfile := "f", exampleV := none }
      (.obj []) rfl rfl⟩

theorem getResponsesByCode_append (jp : JsonParseFn) :
    ∀ a b : List (String × Option ResponseNode),
      getResponsesByCode jp (a ++ b)
        = ((getResponsesByCode jp a).1 ++ (getResponsesByCode jp b).1,
           (getResponsesByCode jp a).2 ++ (getResponsesByCode jp b).2) := by
  intro a b
  induction a with
  | nil => simp [getResponsesByCode]
  | cons e t ih =>
      obtain ⟨codeStr, respOpt⟩ := e
      rw [show ((codeStr, respOpt) :: t) ++ b = (codeStr, respOpt) :: (t ++ b) from rfl,
        show getResponsesByCode jp ((codeStr, respOpt) :: (t ++ b))
          = ((extractEntry jp codeStr respOpt).1.toList ++ (getResponsesByCode jp (t ++ b)).1,
             (extractEntry jp codeStr respOpt).2 ++ (getResponsesByCode jp (t ++ b)).2) from rfl,
        show getResponsesByCode jp ((codeStr, respOpt) :: t)
          = ((extractEntry jp codeStr respOpt).1.toList ++ (getResponsesByCode jp t).1,
             (extractEntry jp codeStr respOpt).2 ++ (getResponsesByCode jp t).2) from rfl,
        ih]
      simp

/-- C9 confirmed: a responses entry whose selected body carries a truthy
schema text that JSON.parse rejects still produces its candidate — with a
null schema and the body's example intact — and emits exactly one
diagnostic; the extractor is a total function, so no exception escapes
it. -/
theorem c9_schema_parse_failure (jp : JsonParseFn)
    (rs1 rs2 : List (String × Option ResponseNode)) (codeStr : String) (resp : ResponseNode)
    (bodyN : BodyNode) (s : String) (n : Int)
    (hn : jsNumberInt? codeStr = some n) (hsel : selectBody resp.body = some bodyN)
    (hschema : bodyN.schema = some s) (hne : s ≠ "") (hjp : jp s = none) :
    ((getResponsesByCode jp (rs1 ++ (codeStr, some resp) :: rs2)).1
      = (getResponsesByCode jp rs1).1
        ++ { code := n, schema := none, exampleV := bodyN.exampleV }
        :: (getResponsesByCode jp rs2).1) ∧
    ((getResponsesByCode jp (rs1 ++ (codeStr, some resp) :: rs2)).2
      = (getResponsesByCode jp rs1).2 ++ schemaWarnMsg s :: (getResponsesByCode jp rs2).2) := by
  have hone : extractEntry jp codeStr (some resp)
      = (some { code := n, schema := none, exampleV := bodyN.exampleV },
         [schemaWarnMsg s]) := by
    simp [extractEntry, hn, hsel, hschema, hne, hjp]
  have hcons : getResponsesByCode jp ((codeStr, some resp) :: rs2)
      = ((extractEntry jp codeStr (some resp)).1.toList ++ (getResponsesByCode jp rs2).1,
         (extractEntry jp codeStr (some resp)).2 ++ (getResponsesByCode jp rs2).2) := rfl
  rw [getResponsesByCode_append jp rs1 ((codeStr, some resp) :: rs2), hcons, hone]
  constructor
  · simp
  · simp

/-- Witness for C9 at a concrete malformed-schema response. -/
theorem c9_schema_parse_failure_witness :
    ((getResponsesByCode jpFail [("201", some { body := some [("application/json",
        { schema := some "notjson", exampleV := some (.str "ex") })] })]).1
      = [{ code := 201, schema := none, exampleV := some (JsonV.str "ex") }]) ∧
    ((getResponsesByCode jpFail [("201", some { body := some [("application/json",
        { schema := some "notjson", exampleV := some (.str "ex") })] })]).2
      = [schemaWarnMsg "notjson"]) := by
  have h := c9_schema_parse_failure jpFail [] []
    "201" { body := some [("application/json",
      { schema := some "notjson", exampleV := some (.str "ex") })] }
    { schema := some "notjson", exampleV := some (.str "ex") } "notjson" 201
    (by decide) rfl rfl (by decide) rfl
  exact ⟨by simpa using h.1, by simpa using h.2⟩

/-- C10 confirmed: with an options object and a valid callback but neither
a truthy path field nor an array files field, the entry point returns with
no console output, no pipeline dispatch, and no callback invocation — a
silent no-op. -/
theorem c10_silent_noop (o : GenOptions) (cb : JsCallback)
    (hcb : cb = .fn) (hpath : jsTruthyStrOpt o.path = false)
    (hfiles : ∀ fs, o.files ≠ .array fs) :
    generate (some o) cb
      = { consoleOut := [], calledGenerateFromPath := none
          calledGenerateFromFiles := none, callbackCallsDirect := [] } := by
  subst hcb
  unfold generate
  simp only [hpath, Bool.false_eq_true, if_false]
  cases hf : o.files with
  | undef => simp
  | array fs => exact absurd hf (hfiles fs)
  | notArray => simp

/-- Witness for C10 at options with no path and no files. -/
theorem c10_silent_noop_witness :
    generate (some { path := none, files := .undef }) .fn
      = { consoleOut := [], calledGenerateFromPath := none
          calledGenerateFromFiles := none, callbackCallsDirect := [] } :=
  c10_silent_noop { path := none, files := .undef } .fn rfl rfl
    (by intro fs h; cases h)

end RamlMocker
